import Mathlib

/-!
Verification of the higher-order DMD layer (`flowtorch/analysis/hodmd.py`) and of
the VTK data loader (`flowtorch/data/vtk_dataloader.py`).

Dense tensors are embedded as a shape (`rows`, `cols`) together with a total entry
function into ℚ; entries outside the shape are irrelevant junk, so "tensor equality"
is the extensional predicate `Mat.TEq` (same shape, same entries inside the shape).
Rational numbers stand in for the float entries: every claim settled here is about
shapes and exact algebraic structure, not rounding.

The `DMD` base class and the `SVD` rank reducer live outside the two embedded
source files; they are modelled abstractly from the spec (see `SVDRes`, `DMDBase`).
Everything in `hodmd.py` and `vtk_dataloader.py` is translated directly.
-/

/-- A dense 2-d tensor: a shape and a total entry function (junk outside the shape). -/
structure Mat where
  rows : Nat
  cols : Nat
  entry : Nat → Nat → ℚ

/-- Extensional tensor equality: same shape and same entries inside the shape.
This is what `torch.equal` compares. -/
def Mat.TEq (A B : Mat) : Prop :=
  A.rows = B.rows ∧ A.cols = B.cols ∧
    ∀ i j, i < A.rows → j < A.cols → A.entry i j = B.entry i j

/-- Matrix product `A @ B` (summing over the inner dimension `A.cols`). -/
def Mat.mul (A B : Mat) : Mat where
  rows := A.rows
  cols := B.cols
  entry := fun i j => (Finset.range A.cols).sum fun k => A.entry i k * B.entry k j

/-- Transpose `A.T`. -/
def Mat.transpose (A : Mat) : Mat where
  rows := A.cols
  cols := A.rows
  entry := fun i j => A.entry j i

/-- Entrywise difference `A - B` (shapes agree wherever the source subtracts). -/
def Mat.sub (A B : Mat) : Mat where
  rows := A.rows
  cols := A.cols
  entry := fun i j => A.entry i j - B.entry i j

/-- Python row slice `A[:r]`: keep the first `r` rows (clamped like Python slicing). -/
def Mat.takeRows (A : Mat) (r : Nat) : Mat where
  rows := min r A.rows
  cols := A.cols
  entry := A.entry

/-- Python column slice `A[:, lo:hi]` for nonnegative bounds (clamped like Python
slicing; truncated `Nat` subtraction mirrors the clamping at 0). -/
def Mat.colSlice (A : Mat) (lo hi : Nat) : Mat where
  rows := A.rows
  cols := min hi A.cols - lo
  entry := fun i j => A.entry i (lo + j)

/-- Vertical concatenation `torch.cat(blocks)` of a list of equal-width blocks
(`pt.cat` raises on width mismatch; every call site stacks equal-width slices). -/
def vcatList : List Mat → Mat
  | [] => ⟨0, 0, fun _ _ => 0⟩
  | A :: rest =>
    let R := vcatList rest
    ⟨A.rows + R.rows, A.cols,
      fun i j => if i < A.rows then A.entry i j else R.entry (i - A.rows) j⟩

/-- `HODMD._create_time_delays` (hodmd.py lines 86-99): stack the `delay`
column-shifted windows `data_matrix[:, i : cols - (d - i - 1)]` for
`i = 0, …, d-1` vertically. -/
def createTimeDelays (d : Nat) (X : Mat) : Mat :=
  vcatList ((List.range d).map fun i => X.colSlice i (X.cols - (d - i - 1)))

/-- Python exceptions surfaced by the embedded code. -/
inductive PyErr where
  | valueError (msg : String)
  | notImplementedError (msg : String)
deriving DecidableEq

/-- The exact message of the delay validation error (hodmd.py lines 77-80);
`\x27` is the ASCII apostrophe. -/
def delayErrorMsg (delay : Int) : String :=
  "The \x27delay\x27 parameter must be a positive integer. Got " ++ toString delay

/-- The exact message of the snapshot-count validation error (hodmd.py lines 81-84). -/
def snapshotsErrorMsg (cols_org : Nat) (delay : Int) : String :=
  "The number of snapshots (" ++ toString cols_org ++
    ") must be larger than the number of time delays (" ++ toString delay ++ ")"

/-- `HODMD._validate_inputs` (hodmd.py lines 62-84). -/
def validate_inputs (cols_org : Nat) (delay : Int) : Except PyErr Unit :=
  if delay < 1 then
    Except.error (PyErr.valueError (delayErrorMsg delay))
  else if (cols_org : Int) - delay < 1 then
    Except.error (PyErr.valueError (snapshotsErrorMsg cols_org delay))
  else
    Except.ok ()

/-- Modelled from the spec: the rank reducer `SVD` (class `flowtorch.analysis.svd.SVD`,
absent from src/) returns an orthonormal basis `U` (rows_org × rank) and an effective
rank; only this accessor contract (§4.1 of the spec) is used by `hodmd.py`. -/
structure SVDRes where
  U : Mat
  rank : Nat

/-- Modelled from the spec: `BaseDecomposition` (class `flowtorch.analysis.dmd.DMD`,
absent from src/) fitted on `dataMatrix`. Its public `modes` accessor returns the
raw modes in the space of `dataMatrix` (spec §4.2); `projection_error` and the
`tlsq_error` pair are likewise matrices in that space; `reconstruction` is the
generic derived quantity, a function of the *public* (overridable) `modes`
accessor per the polymorphism contract of spec §4.2. -/
structure DMDBase where
  dataMatrix : Mat
  modes : Mat
  projection_error : Mat
  tlsq_error : Mat × Mat
  reconstruction : Mat → Mat

/-- A constructed `HODMD` object: the original data matrix and delay kept in
`self._dm_org` / `self._delay`, the dimensionality-reduction SVD in `self._svd_dr`,
and the base-class state fitted on the delay-embedded reduced matrix. -/
structure HODMD where
  dm_org : Mat
  delay : Int
  svd_dr : SVDRes
  base : DMDBase

/-- The effective delay (`HODMD.__init__` lines 58-61): the caller's delay, or
`int(cols_org / 3)` when absent. For representable column counts Python's
`int(cols / 3)` (float division, then truncation toward zero of a nonnegative
value) equals floor division on ℕ. -/
def effectiveDelay (cols_org : Nat) (delayOpt : Option Int) : Int :=
  match delayOpt with
  | some d => d
  | none => ((cols_org / 3 : Nat) : Int)

/-- `HODMD.__init__` (hodmd.py lines 32-70): store the data matrix, resolve the
delay default, validate, resolve the SVD (compute it only when none was supplied),
build the delay-embedded matrix from the reduced coordinates `U.T @ data_matrix`,
and construct the base decomposition on it. `computeSVD` and `fit` stand for the
external `SVD` and `DMD` constructors (modelled from the spec, see `SVDRes` and
`DMDBase`); `fit X` is the base-class state after `super().__init__(X, dt, ...)`,
whose `dataMatrix` is `X` itself. -/
def HODMD.make (data_matrix : Mat) (delayOpt : Option Int) (svdOpt : Option SVDRes)
    (computeSVD : Mat → SVDRes) (fit : Mat → DMDBase) : Except PyErr HODMD :=
  let d : Int := effectiveDelay data_matrix.cols delayOpt
  match validate_inputs data_matrix.cols d with
  | Except.error e => Except.error e
  | Except.ok _ =>
    let svd := match svdOpt with
      | some s => s
      | none => computeSVD data_matrix
    let X := createTimeDelays d.toNat ((svd.U.transpose).mul data_matrix)
    Except.ok { dm_org := data_matrix, delay := d, svd_dr := svd,
                base := { fit X with dataMatrix := X } }

/-- `self._rows_org` (hodmd.py line 58). -/
def HODMD.rows_org (h : HODMD) : Nat := h.dm_org.rows

/-- `self._cols_org` (hodmd.py line 58). -/
def HODMD.cols_org (h : HODMD) : Nat := h.dm_org.cols

/-- `HODMD.modes` (hodmd.py lines 109-121): `self.svd_dr.U @ super().modes[:r]`
with `r = self.svd_dr.rank` (the dtype cast is a no-op over ℚ). -/
def HODMD.modes (h : HODMD) : Mat :=
  h.svd_dr.U.mul (h.base.modes.takeRows h.svd_dr.rank)

/-- The base-class `reconstruction` property as seen from a `HODMD` object: the
generic formula applied to the *overridden* `modes` (spec §4.2 polymorphism
contract). -/
def HODMD.reconstruction (h : HODMD) : Mat :=
  h.base.reconstruction h.modes

/-- `HODMD.reconstruction_error` (hodmd.py lines 123-135):
`reconstruction - self._dm_org[:, :reconstruction.shape[-1]]`. -/
def HODMD.reconstruction_error (h : HODMD) : Mat :=
  h.reconstruction.sub (h.dm_org.colSlice 0 h.reconstruction.cols)

/-- `HODMD.projection_error` (hodmd.py lines 137-145):
`self.svd_dr.U @ super().projection_error[:r]`. -/
def HODMD.projection_error (h : HODMD) : Mat :=
  h.svd_dr.U.mul (h.base.projection_error.takeRows h.svd_dr.rank)

/-- `HODMD.tlsq_error` (hodmd.py lines 147-156):
`(self.svd_dr.U @ dx[:r], self.svd_dr.U @ dy[:r])`. -/
def HODMD.tlsq_error (h : HODMD) : Mat × Mat :=
  (h.svd_dr.U.mul (h.base.tlsq_error.1.takeRows h.svd_dr.rank),
   h.svd_dr.U.mul (h.base.tlsq_error.2.takeRows h.svd_dr.rank))

/-- A `VTKDataloader` (vtk_dataloader.py lines 50-76). File names and the
prefix/suffix pattern pieces (`self._prefix`, `self._suffix`) are embedded as
character lists; the VTK reader object and dtype play no role in the claims. -/
structure VTKDataloader where
  path : List Char
  pre : List Char
  suf : List Char

/-- `VTKDataloader.weights` (vtk_dataloader.py lines 208-211): unconditionally
`raise NotImplementedError("The weights property is not yet implemented.")`. -/
def VTKDataloader.weights (_l : VTKDataloader) : Except PyErr Mat :=
  Except.error (PyErr.notImplementedError
    "The weights property is not yet implemented.")

/-- `f.split("/")[-1]`: the part of `f` after the last slash. -/
def lastComponent (f : List Char) : List Char :=
  f.foldl (fun acc c => if c = '/' then [] else acc ++ [c]) []

/-- Python slice `name[len(prefix) : -len(suffix)]` as used in `write_times`
(vtk_dataloader.py line 185): a negative stop `-k` addresses `len(name) - k`
clamped at 0 (truncated ℕ subtraction), and `-0` is `0`, so an empty suffix
yields the empty slice. -/
def stripTimeLabel (pre suf name : List Char) : List Char :=
  let stop := if suf.length = 0 then 0 else name.length - suf.length
  (name.drop pre.length).take (stop - pre.length)

/-- The numeric value of the digits of a decimal string. -/
def digitsVal (cs : List Char) : Nat :=
  cs.foldl (fun a c => a * 10 + (c.toNat - 48)) 0

/-- Modelled from the spec: Python's `float` applied to a decimal time label
(`sorted(..., key=float)`, vtk_dataloader.py line 186), absent from src/.
Exact rational value `intpart + fracpart / 10 ^ (fracpart digits)` of a label
`intpart.fracpart`; binary-double rounding is out of scope — the claims concern
the induced ordering of time labels. -/
def floatOfLabel (cs : List Char) : ℚ :=
  let ip := cs.takeWhile (fun c => c ≠ '.')
  let fp := ((cs.dropWhile (fun c => c ≠ '.')).drop 1)
  mkRat ((digitsVal ip * 10 ^ fp.length + digitsVal fp : Nat) : Int) (10 ^ fp.length)

/-- `VTKDataloader.write_times` (vtk_dataloader.py lines 180-188) with the glob
result supplied as `files`: strip each file name to its time label and sort the
labels numerically (`sorted` with `key=float` is a stable sort by numeric value,
embedded as a stable merge sort under the `floatOfLabel` key). -/
def write_times (pre suf : List Char) (files : List (List Char)) : List (List Char) :=
  (files.map fun f => stripTimeLabel pre suf (lastComponent f)).mergeSort
    fun a b => decide (floatOfLabel a ≤ floatOfLabel b)

/-- Sample 2×3 data matrix for concrete witnesses. -/
def dmA : Mat := ⟨2, 3, fun i j => (i : ℚ) + 2 * j⟩

/-- Sample 1×2 data matrix (fewer than 3 columns) for concrete witnesses. -/
def dmB : Mat := ⟨1, 2, fun _ _ => 0⟩

/-- Sample factorization for witnesses: a 2×1 basis of ones with rank 1. -/
def svdA : SVDRes := ⟨⟨2, 1, fun _ _ => 1⟩, 1⟩

/-- Sample base-decomposition constructor for witnesses: echoes its data matrix in
every accessor and reconstructs with the identity formula. -/
def fitA : Mat → DMDBase := fun X => ⟨X, X, X, (X, X), fun M => M⟩

/-- Sample rank reducer for witnesses. -/
def compA : Mat → SVDRes := fun _ => svdA

/-- The `HODMD` object the samples construct at delay 1. -/
def hA : HODMD :=
  { dm_org := dmA, delay := 1, svd_dr := svdA,
    base := { fitA (createTimeDelays (Int.toNat 1) ((svdA.U.transpose).mul dmA)) with
              dataMatrix := createTimeDelays (Int.toNat 1) ((svdA.U.transpose).mul dmA) } }

/-- A constant base-decomposition constructor (trivially invariant under tensor
equality) for the delay-1 witness. -/
def fitC : Mat → DMDBase :=
  fun _ => ⟨dmB, dmB, dmB, (dmB, dmB), fun M => M⟩

/-- The `HODMD` object the samples construct at delay 1 with the constant fit. -/
def hC : HODMD :=
  { dm_org := dmA, delay := 1, svd_dr := svdA,
    base := { fitC (createTimeDelays (Int.toNat 1) ((svdA.U.transpose).mul dmA)) with
              dataMatrix := createTimeDelays (Int.toNat 1) ((svdA.U.transpose).mul dmA) } }

theorem vcatList_rows_of_uniform (L : List Mat) (m : Nat)
    (h : ∀ A ∈ L, A.rows = m) : (vcatList L).rows = L.length * m := by
  induction L with
  | nil => simp [vcatList]
  | cons A rest ih =>
    have hA : A.rows = m := h A (List.mem_cons_self A rest)
    have hrest := ih fun B hB => h B (List.mem_cons_of_mem A hB)
    simp only [vcatList, hA, hrest, List.length_cons]
    ring

theorem vcatList_cols_cons (A : Mat) (rest : List Mat) :
    (vcatList (A :: rest)).cols = A.cols := rfl

theorem vcatList_entry_of_uniform (L : List Mat) (m : Nat)
    (h : ∀ A ∈ L, A.rows = m) (k r j : Nat) (hk : k < L.length) (hr : r < m) :
    (vcatList L).entry (k * m + r) j = (L.get ⟨k, hk⟩).entry r j := by
  induction L generalizing k with
  | nil => exact absurd hk (Nat.not_lt_zero k)
  | cons A rest ih =>
    have hA : A.rows = m := h A (List.mem_cons_self A rest)
    match k with
    | 0 =>
      simp only [vcatList, Nat.zero_mul, Nat.zero_add]
      rw [if_pos (by omega)]
      rfl
    | Nat.succ k' =>
      have hge : ¬ (k' + 1) * m + r < A.rows := by
        have : m ≤ (k' + 1) * m := Nat.le_mul_of_pos_left m (Nat.succ_pos k')
        omega
      simp only [vcatList]
      rw [if_neg hge]
      have harg : (k' + 1) * m + r - A.rows = k' * m + r := by
        have : m ≤ (k' + 1) * m := Nat.le_mul_of_pos_left m (Nat.succ_pos k')
        rw [hA]
        ring_nf
        omega
      rw [harg]
      exact ih (fun B hB => h B (List.mem_cons_of_mem A hB)) k'
        (Nat.lt_of_succ_lt_succ hk)

theorem createTimeDelays_rows (d : Nat) (X : Mat) :
    (createTimeDelays d X).rows = d * X.rows := by
  unfold createTimeDelays
  rw [vcatList_rows_of_uniform _ X.rows]
  · simp
  · intro A hA
    rcases List.mem_map.mp hA with ⟨i, _, rfl⟩
    rfl

theorem createTimeDelays_cols (d : Nat) (X : Mat) (hd : 1 ≤ d) :
    (createTimeDelays d X).cols = X.cols - (d - 1) := by
  obtain ⟨k, rfl⟩ : ∃ k, d = k + 1 := ⟨d - 1, by omega⟩
  unfold createTimeDelays
  rw [List.range_succ_eq_map]
  simp only [List.map_cons]
  rw [vcatList_cols_cons]
  show min (X.cols - (k + 1 - 0 - 1)) X.cols - 0 = X.cols - (k + 1 - 1)
  omega

theorem createTimeDelays_entry (d : Nat) (X : Mat) (k r j : Nat)
    (hk : k < d) (hr : r < X.rows) :
    (createTimeDelays d X).entry (k * X.rows + r) j = X.entry r (k + j) := by
  have hlen :
      k < ((List.range d).map fun i => X.colSlice i (X.cols - (d - i - 1))).length := by
    simpa using hk
  have huni : ∀ A ∈ (List.range d).map (fun i => X.colSlice i (X.cols - (d - i - 1))),
      A.rows = X.rows := by
    intro A hA
    rcases List.mem_map.mp hA with ⟨i, _, rfl⟩
    rfl
  unfold createTimeDelays
  rw [vcatList_entry_of_uniform _ X.rows huni k r j hlen hr]
  rw [List.get_eq_getElem]
  simp only [List.getElem_map, List.getElem_range]
  rfl

/-- C2: for `delay ≥ 1` and `cols − delay ≥ 1`, the delay-embedded matrix built from
a reduced matrix `X` has shape `(delay · X.rows) × (X.cols − delay + 1)`, and its
`k`-th stacked block (0-indexed) holds `X`'s columns `k` through `X.cols − delay + k`:
entry `(k·X.rows + r, j)` of the embedding is `X`'s entry `(r, k + j)`. -/
theorem hodmd_C2_create_time_delays (X : Mat) (d : Nat)
    (hd : 1 ≤ d) (hc : 1 ≤ X.cols - d) :
    (createTimeDelays d X).rows = d * X.rows ∧
    (createTimeDelays d X).cols = X.cols - d + 1 ∧
    ∀ k r j, k < d → r < X.rows → j < X.cols - d + 1 →
      (createTimeDelays d X).entry (k * X.rows + r) j = X.entry r (k + j) := by
  refine ⟨createTimeDelays_rows d X, ?_, ?_⟩
  · rw [createTimeDelays_cols d X hd]
    omega
  · intro k r j hk hr _
    exact createTimeDelays_entry d X k r j hk hr

/-- Witness for C2: a concrete 2×4 matrix with delay 2 — the embedding is 4×3 and
entry (3, 1) (block 1, local row 1, column 1) is the source entry (1, 2). -/
theorem hodmd_C2_create_time_delays_witness :
    (1 ≤ 2 ∧ 1 ≤ (4 : Nat) - 2) ∧
    (createTimeDelays 2 ⟨2, 4, fun i j => (10 * i + j : ℚ)⟩).rows = 4 ∧
    (createTimeDelays 2 ⟨2, 4, fun i j => (10 * i + j : ℚ)⟩).cols = 3 ∧
    (createTimeDelays 2 ⟨2, 4, fun i j => (10 * i + j : ℚ)⟩).entry 3 1 = 12 :=
  have h := hodmd_C2_create_time_delays ⟨2, 4, fun i j => (10 * i + j : ℚ)⟩ 2
    (by decide) (by decide)
  ⟨⟨by decide, by decide⟩, h.1, h.2.1, by
    have h5 := h.2.2 1 1 1 (by decide) (by decide) (by decide)
    norm_num at h5
    exact h5⟩

theorem makeA_ok :
    HODMD.make dmA (some 1) (some svdA) compA fitA = Except.ok hA := rfl

theorem makeA_default_ok :
    HODMD.make dmA none (some svdA) compA fitA = Except.ok hA := rfl

theorem HODMD.make_ok_inv (dm : Mat) (delayOpt : Option Int) (svdOpt : Option SVDRes)
    (computeSVD : Mat → SVDRes) (fit : Mat → DMDBase) (h : HODMD)
    (hmk : HODMD.make dm delayOpt svdOpt computeSVD fit = Except.ok h) :
    h.dm_org = dm ∧
    h.delay = effectiveDelay dm.cols delayOpt ∧
    1 ≤ h.delay ∧ h.delay + 1 ≤ (dm.cols : Int) ∧
    h.svd_dr = svdOpt.getD (computeSVD dm) ∧
    h.base =
      { fit (createTimeDelays h.delay.toNat ((h.svd_dr.U.transpose).mul dm)) with
        dataMatrix := createTimeDelays h.delay.toNat ((h.svd_dr.U.transpose).mul dm) } := by
  unfold HODMD.make validate_inputs at hmk
  by_cases h1 : effectiveDelay dm.cols delayOpt < 1
  · simp [h1] at hmk
  · by_cases h2 : (dm.cols : Int) - effectiveDelay dm.cols delayOpt < 1
    · simp [h1, h2] at hmk
    · simp only [if_neg h1, if_neg h2] at hmk
      rw [Except.ok.injEq] at hmk
      subst hmk
      refine ⟨rfl, rfl, ?_, ?_, ?_, rfl⟩
      · show 1 ≤ effectiveDelay dm.cols delayOpt
        omega
      · show effectiveDelay dm.cols delayOpt + 1 ≤ (dm.cols : Int)
        omega
      · show (match svdOpt with
          | some s => s
          | none => computeSVD dm) = svdOpt.getD (computeSVD dm)
        cases svdOpt <;> rfl

/-- C1: for every successfully constructed `HODMD` whose factorization basis `U` has
one row per row of the original data matrix (spec §3 Factorization invariant),
`modes` equals `U @ (base modes)[:rank_dr]` — the base decomposition's embedded-space
modes restricted to their first `rank_dr` rows, then left-multiplied by `U` — and has
exactly `rows_org` rows and one column per base mode. -/
theorem hodmd_C1_modes (dm : Mat) (delayOpt : Option Int) (svdOpt : Option SVDRes)
    (computeSVD : Mat → SVDRes) (fit : Mat → DMDBase) (h : HODMD)
    (hmk : HODMD.make dm delayOpt svdOpt computeSVD fit = Except.ok h)
    (hU : h.svd_dr.U.rows = h.dm_org.rows) :
    h.modes = h.svd_dr.U.mul (h.base.modes.takeRows h.svd_dr.rank) ∧
    h.modes.rows = h.rows_org ∧
    h.modes.cols = h.base.modes.cols :=
  ⟨rfl, hU, rfl⟩

/-- Witness for C1 at the sample construction. -/
theorem hodmd_C1_modes_witness :
    HODMD.make dmA (some 1) (some svdA) compA fitA = Except.ok hA ∧
    hA.svd_dr.U.rows = hA.dm_org.rows ∧
    hA.modes.rows = 2 :=
  ⟨makeA_ok, rfl,
    (hodmd_C1_modes dmA (some 1) (some svdA) compA fitA hA makeA_ok rfl).2.1⟩

/-- C5: for every successfully constructed `HODMD`, `projection_error` is `U` applied
to the first `rank_dr` rows of the base decomposition's projection error, and
`tlsq_error` is the pair of `U` applied to the first `rank_dr` rows of the base
noise matrices. -/
theorem hodmd_C5_projection_tlsq (dm : Mat) (delayOpt : Option Int)
    (svdOpt : Option SVDRes) (computeSVD : Mat → SVDRes) (fit : Mat → DMDBase)
    (h : HODMD)
    (hmk : HODMD.make dm delayOpt svdOpt computeSVD fit = Except.ok h) :
    h.projection_error =
      h.svd_dr.U.mul (h.base.projection_error.takeRows h.svd_dr.rank) ∧
    h.tlsq_error =
      (h.svd_dr.U.mul (h.base.tlsq_error.1.takeRows h.svd_dr.rank),
       h.svd_dr.U.mul (h.base.tlsq_error.2.takeRows h.svd_dr.rank)) :=
  ⟨rfl, rfl⟩

/-- Witness for C5 at the sample construction. -/
theorem hodmd_C5_projection_tlsq_witness :
    HODMD.make dmA (some 1) (some svdA) compA fitA = Except.ok hA ∧
    hA.projection_error =
      hA.svd_dr.U.mul (hA.base.projection_error.takeRows hA.svd_dr.rank) :=
  ⟨makeA_ok,
    (hodmd_C5_projection_tlsq dmA (some 1) (some svdA) compA fitA hA makeA_ok).1⟩

/-- C7: when no delay is supplied and construction succeeds, the stored delay (what
the `delay` accessor returns) is `⌊cols_org / 3⌋`. -/
theorem hodmd_C7_default_delay (dm : Mat) (svdOpt : Option SVDRes)
    (computeSVD : Mat → SVDRes) (fit : Mat → DMDBase) (h : HODMD)
    (hmk : HODMD.make dm none svdOpt computeSVD fit = Except.ok h) :
    h.delay = ((dm.cols / 3 : Nat) : Int) :=
  (HODMD.make_ok_inv dm none svdOpt computeSVD fit h hmk).2.1

/-- Witness for C7: 3 columns give default delay ⌊3/3⌋ = 1. -/
theorem hodmd_C7_default_delay_witness :
    HODMD.make dmA none (some svdA) compA fitA = Except.ok hA ∧ hA.delay = 1 :=
  ⟨makeA_default_ok,
    hodmd_C7_default_delay dmA (some svdA) compA fitA hA makeA_default_ok⟩

/-- C8: without an explicit delay, a data matrix with fewer than 3 columns always
fails: the default delay is 0 and construction raises the delay `ValidationError`
with message reporting "Got 0", independently of the rank reducer and the base
decomposition (nothing else is computed). -/
theorem hodmd_C8_default_delay_fails (dm : Mat) (svdOpt : Option SVDRes)
    (computeSVD : Mat → SVDRes) (fit : Mat → DMDBase) (hc : dm.cols < 3) :
    HODMD.make dm none svdOpt computeSVD fit =
      Except.error (PyErr.valueError (delayErrorMsg 0)) ∧
    ∀ svdOpt2 computeSVD2 fit2,
      HODMD.make dm none svdOpt2 computeSVD2 fit2 =
        HODMD.make dm none svdOpt computeSVD fit := by
  have hz : dm.cols / 3 = 0 := Nat.div_eq_of_lt hc
  have hd : effectiveDelay dm.cols none = 0 := by
    simp [effectiveDelay, hz]
  constructor
  · simp [HODMD.make, validate_inputs, hd]
  · intro s c f
    simp [HODMD.make, validate_inputs, hd]

/-- Witness for C8: a 1×2 matrix without an explicit delay fails with "Got 0". -/
theorem hodmd_C8_default_delay_fails_witness :
    dmB.cols < 3 ∧
    HODMD.make dmB none (some svdA) compA fitA =
      Except.error (PyErr.valueError (delayErrorMsg 0)) :=
  ⟨by decide,
    (hodmd_C8_default_delay_fails dmB (some svdA) compA fitA (by decide)).1⟩

/-- C3: for every successfully constructed `HODMD` (with the factorization-shape
invariant and the base-class reconstruction contract: the generic reconstruction has
one row per mode row and one column per data-matrix column), `reconstruction_error`
is the base reconstruction — computed from the overridden `modes`, hence in the
original row space — minus the equally many leading columns of the original,
un-reduced, un-embedded data matrix; it has `rows_org` rows and at most `cols_org`
columns. -/
theorem hodmd_C3_reconstruction_error (dm : Mat) (delayOpt : Option Int)
    (svdOpt : Option SVDRes) (computeSVD : Mat → SVDRes) (fit : Mat → DMDBase)
    (h : HODMD)
    (hmk : HODMD.make dm delayOpt svdOpt computeSVD fit = Except.ok h)
    (hU : h.svd_dr.U.rows = h.dm_org.rows)
    (hrows : (h.base.reconstruction h.modes).rows = h.modes.rows)
    (hcols : (h.base.reconstruction h.modes).cols = h.base.dataMatrix.cols) :
    h.reconstruction_error =
      (h.base.reconstruction h.modes).sub
        (h.dm_org.colSlice 0 (h.base.reconstruction h.modes).cols) ∧
    h.reconstruction_error.rows = h.rows_org ∧
    h.reconstruction_error.cols ≤ h.cols_org := by
  obtain ⟨hdm, hdel, hge1, hle, hsvd, hbase⟩ :=
    HODMD.make_ok_inv dm delayOpt svdOpt computeSVD fit h hmk
  refine ⟨rfl, ?_, ?_⟩
  · show (h.base.reconstruction h.modes).rows = h.dm_org.rows
    rw [hrows]
    exact hU
  · show (h.base.reconstruction h.modes).cols ≤ h.dm_org.cols
    rw [hcols, hbase]
    show (createTimeDelays h.delay.toNat
      ((h.svd_dr.U.transpose).mul dm)).cols ≤ h.dm_org.cols
    rw [createTimeDelays_cols _ _ (by omega)]
    rw [hdm]
    exact Nat.sub_le _ _

/-- Witness for C3 at the sample construction (the sample base fit echoes its input,
so the contract hypotheses hold definitionally). -/
theorem hodmd_C3_reconstruction_error_witness :
    HODMD.make dmA (some 1) (some svdA) compA fitA = Except.ok hA ∧
    hA.reconstruction_error.rows = 2 ∧ hA.reconstruction_error.cols ≤ 3 :=
  have h3 := hodmd_C3_reconstruction_error dmA (some 1) (some svdA) compA fitA hA
    makeA_ok rfl rfl rfl
  ⟨makeA_ok, h3.2.1, h3.2.2⟩

theorem delayMsg_ne_snapshotsMsg (c : Nat) (d e : Int) :
    delayErrorMsg d ≠ snapshotsErrorMsg c e := by
  intro hEq
  have h4 := congrArg (fun s => s.data[4]?) hEq
  simp only [delayErrorMsg, snapshotsErrorMsg, String.data_append,
    List.append_assoc] at h4
  rw [List.getElem?_append, List.getElem?_append] at h4
  rw [if_pos (by decide), if_pos (by decide)] at h4
  exact absurd h4 (by decide)

/-- C4: construction fails with exactly the delay `ValidationError` message iff the
effective delay is below 1; it fails with exactly the snapshot-count message iff the
delay is at least 1 but `cols_org − delay < 1`; and in every failing case the result
does not depend on the rank reducer or on the base decomposition (validation happens
before any computation). -/
theorem hodmd_C4_validation (dm : Mat) (delayOpt : Option Int) (svdOpt : Option SVDRes)
    (computeSVD : Mat → SVDRes) (fit : Mat → DMDBase) :
    (HODMD.make dm delayOpt svdOpt computeSVD fit =
        Except.error (PyErr.valueError
          (delayErrorMsg (effectiveDelay dm.cols delayOpt)))
      ↔ effectiveDelay dm.cols delayOpt < 1) ∧
    (HODMD.make dm delayOpt svdOpt computeSVD fit =
        Except.error (PyErr.valueError
          (snapshotsErrorMsg dm.cols (effectiveDelay dm.cols delayOpt)))
      ↔ 1 ≤ effectiveDelay dm.cols delayOpt ∧
        (dm.cols : Int) - effectiveDelay dm.cols delayOpt < 1) ∧
    ((effectiveDelay dm.cols delayOpt < 1 ∨
        (dm.cols : Int) - effectiveDelay dm.cols delayOpt < 1) →
      ∀ svdOpt2 computeSVD2 fit2,
        HODMD.make dm delayOpt svdOpt2 computeSVD2 fit2 =
          HODMD.make dm delayOpt svdOpt computeSVD fit) := by
  by_cases h1 : effectiveDelay dm.cols delayOpt < 1
  · have hmk : HODMD.make dm delayOpt svdOpt computeSVD fit =
        Except.error (PyErr.valueError
          (delayErrorMsg (effectiveDelay dm.cols delayOpt))) := by
      simp [HODMD.make, validate_inputs, h1]
    refine ⟨⟨fun _ => h1, fun _ => hmk⟩, ⟨fun hE => ?_, fun hP => ?_⟩,
      fun _ s c f => ?_⟩
    · rw [hmk] at hE
      simp only [Except.error.injEq, PyErr.valueError.injEq] at hE
      exact absurd hE (delayMsg_ne_snapshotsMsg _ _ _)
    · exact absurd hP.1 (by omega)
    · rw [hmk]
      simp [HODMD.make, validate_inputs, h1]
  · by_cases h2 : (dm.cols : Int) - effectiveDelay dm.cols delayOpt < 1
    · have hmk : HODMD.make dm delayOpt svdOpt computeSVD fit =
          Except.error (PyErr.valueError
            (snapshotsErrorMsg dm.cols (effectiveDelay dm.cols delayOpt))) := by
        simp [HODMD.make, validate_inputs, h1, h2]
      refine ⟨⟨fun hE => ?_, fun hlt => absurd hlt h1⟩,
        ⟨fun _ => ⟨by omega, h2⟩, fun _ => hmk⟩, fun _ s c f => ?_⟩
      · rw [hmk] at hE
        simp only [Except.error.injEq, PyErr.valueError.injEq] at hE
        exact absurd hE.symm (delayMsg_ne_snapshotsMsg _ _ _)
      · rw [hmk]
        simp [HODMD.make, validate_inputs, h1, h2]
    · refine ⟨⟨fun hE => ?_, fun hlt => absurd hlt h1⟩,
        ⟨fun hE => ?_, fun hP => absurd hP.2 h2⟩,
        fun hor => absurd hor (not_or.mpr ⟨h1, h2⟩)⟩
      · simp [HODMD.make, validate_inputs, h1, h2] at hE
      · simp [HODMD.make, validate_inputs, h1, h2] at hE

/-- Witness for C4: with 3 snapshots, delay 0 hits the delay message and delay 3 hits
the snapshot-count message (the spec's own example shape). -/
theorem hodmd_C4_validation_witness :
    HODMD.make dmA (some 0) (some svdA) compA fitA =
      Except.error (PyErr.valueError (delayErrorMsg 0)) ∧
    HODMD.make dmA (some 3) (some svdA) compA fitA =
      Except.error (PyErr.valueError (snapshotsErrorMsg 3 3)) :=
  ⟨(hodmd_C4_validation dmA (some 0) (some svdA) compA fitA).1.mpr (by decide),
   (hodmd_C4_validation dmA (some 3) (some svdA) compA fitA).2.1.mpr
     ⟨by decide, by decide⟩⟩

theorem makeC_ok :
    HODMD.make dmA (some 1) (some svdA) compA fitC = Except.ok hC := rfl

theorem createTimeDelays_one_TEq (X : Mat) : Mat.TEq (createTimeDelays 1 X) X := by
  have hr : (createTimeDelays 1 X).rows = X.rows := by
    rw [createTimeDelays_rows]
    omega
  refine ⟨hr, ?_, ?_⟩
  · rw [createTimeDelays_cols 1 X le_rfl]
    omega
  · intro i j hi hj
    rw [hr] at hi
    have he := createTimeDelays_entry 1 X 0 i j (by omega) hi
    simpa using he

/-- C6: with `delay = 1` the delay embedding is the identity — the embedded matrix is
tensor-equal to the reduced matrix `U.T @ dm` — so for any base fit invariant under
tensor equality, the base decomposition is the plain (non-higher-order) decomposition
of the reduced data, and every accessor equals that decomposition's quantity
restricted to the first `rank_dr` rows and mapped through `U`: the reduction
round-trip `U @ U.T` is the only difference from the plain decomposition. -/
theorem hodmd_C6_delay_one (dm : Mat) (svdOpt : Option SVDRes)
    (computeSVD : Mat → SVDRes) (fit : Mat → DMDBase) (h : HODMD)
    (hmk : HODMD.make dm (some 1) svdOpt computeSVD fit = Except.ok h)
    (hfit : ∀ X Y, Mat.TEq X Y → fit X = fit Y) :
    Mat.TEq h.base.dataMatrix ((h.svd_dr.U.transpose).mul dm) ∧
    h.base.modes = (fit ((h.svd_dr.U.transpose).mul dm)).modes ∧
    h.modes = h.svd_dr.U.mul
      ((fit ((h.svd_dr.U.transpose).mul dm)).modes.takeRows h.svd_dr.rank) ∧
    h.projection_error = h.svd_dr.U.mul
      ((fit ((h.svd_dr.U.transpose).mul dm)).projection_error.takeRows
        h.svd_dr.rank) ∧
    h.tlsq_error =
      (h.svd_dr.U.mul
        ((fit ((h.svd_dr.U.transpose).mul dm)).tlsq_error.1.takeRows h.svd_dr.rank),
       h.svd_dr.U.mul
        ((fit ((h.svd_dr.U.transpose).mul dm)).tlsq_error.2.takeRows
          h.svd_dr.rank)) ∧
    h.reconstruction =
      (fit ((h.svd_dr.U.transpose).mul dm)).reconstruction h.modes := by
  obtain ⟨hdm, hdel, hge1, hle, hsvd, hbase⟩ :=
    HODMD.make_ok_inv dm (some 1) svdOpt computeSVD fit h hmk
  have hXT : Mat.TEq
      (createTimeDelays h.delay.toNat ((h.svd_dr.U.transpose).mul dm))
      ((h.svd_dr.U.transpose).mul dm) := by
    rw [hdel]
    exact createTimeDelays_one_TEq _
  have hfe := hfit _ _ hXT
  refine ⟨?_, ?_, ?_, ?_, ?_, ?_⟩
  · rw [hbase]
    exact hXT
  · rw [hbase]
    show (fit _).modes = _
    rw [hfe]
  · show h.svd_dr.U.mul (h.base.modes.takeRows h.svd_dr.rank) = _
    rw [hbase]
    show h.svd_dr.U.mul ((fit _).modes.takeRows h.svd_dr.rank) = _
    rw [hfe]
  · show h.svd_dr.U.mul (h.base.projection_error.takeRows h.svd_dr.rank) = _
    rw [hbase]
    show h.svd_dr.U.mul ((fit _).projection_error.takeRows h.svd_dr.rank) = _
    rw [hfe]
  · show (h.svd_dr.U.mul (h.base.tlsq_error.1.takeRows h.svd_dr.rank),
       h.svd_dr.U.mul (h.base.tlsq_error.2.takeRows h.svd_dr.rank)) = _
    rw [hbase]
    show (h.svd_dr.U.mul ((fit _).tlsq_error.1.takeRows h.svd_dr.rank),
       h.svd_dr.U.mul ((fit _).tlsq_error.2.takeRows h.svd_dr.rank)) = _
    rw [hfe]
  · show h.base.reconstruction h.modes = _
    rw [hbase]
    show (fit _).reconstruction h.modes = _
    rw [hfe]

/-- Witness for C6 at the sample construction with the constant fit. -/
theorem hodmd_C6_delay_one_witness :
    HODMD.make dmA (some 1) (some svdA) compA fitC = Except.ok hC ∧
    Mat.TEq hC.base.dataMatrix ((hC.svd_dr.U.transpose).mul dmA) :=
  ⟨makeC_ok,
    (hodmd_C6_delay_one dmA (some svdA) compA fitC hC makeC_ok
      (fun _ _ _ => rfl)).1⟩

/-- C9: the loader's `weights` accessor raises `NotImplementedError` with the exact
message "The weights property is not yet implemented." for every loader instance,
whatever its construction parameters, and never yields a substitute value. -/
theorem vtk_C9_weights_not_implemented (l : VTKDataloader) :
    l.weights = Except.error (PyErr.notImplementedError
      "The weights property is not yet implemented.") ∧
    ∀ M : Mat, l.weights ≠ Except.ok M := by
  refine ⟨rfl, ?_⟩
  intro M hM
  simp [VTKDataloader.weights] at hM

unseal List.merge List.mergeSort in
/-- C10: `write_times` returns exactly the time labels extracted from the matching
files (a permutation of them), sorted in ascending order of their numeric value;
and the order is numeric, not lexicographic: the labels "10" and "9" (from files
"path/10.vtk", "path/9.vtk" with empty prefix and suffix ".vtk") come back as
["9", "10"], although "10" < "9" as strings. -/
theorem vtk_C10_write_times_sorted (pre suf : List Char)
    (files : List (List Char)) :
    (write_times pre suf files).Perm
      (files.map fun f => stripTimeLabel pre suf (lastComponent f)) ∧
    List.Sorted (fun a b => floatOfLabel a ≤ floatOfLabel b)
      (write_times pre suf files) ∧
    write_times [] ".vtk".toList
        ["path/10.vtk".toList, "path/9.vtk".toList] =
      ["9".toList, "10".toList] := by
  have htrans : ∀ a b c : List Char,
      decide (floatOfLabel a ≤ floatOfLabel b) = true →
      decide (floatOfLabel b ≤ floatOfLabel c) = true →
      decide (floatOfLabel a ≤ floatOfLabel c) = true := by
    intro a b c hab hbc
    simp only [decide_eq_true_eq] at *
    exact le_trans hab hbc
  have htotal : ∀ a b : List Char,
      (decide (floatOfLabel a ≤ floatOfLabel b) ||
        decide (floatOfLabel b ≤ floatOfLabel a)) = true := by
    intro a b
    simp only [Bool.or_eq_true, decide_eq_true_eq]
    exact le_total _ _
  refine ⟨List.mergeSort_perm _ _, ?_, by decide⟩
  have hp := List.sorted_mergeSort htrans htotal
    (files.map fun f => stripTimeLabel pre suf (lastComponent f))
  unfold write_times
  exact hp.imp (fun hab => of_decide_eq_true hab)
